import Mathlib

/-!
Shallow embedding of the pyerz code-to-document converter
(`src/pyerz/pyerz.py`).

Lines and paths are modelled as `List Char`; the third-party document
library is out of scope (the spec treats it as an external collaborator),
so an emitted paragraph is modelled as the pair of its visible text and
the flag saying whether a page break is attached to it.
-/

namespace Pyerz

/-- A multi-line comment delimiter pair (start-delimiter, end-delimiter). -/
abbrev CommentPair := List Char × List Char

/-- The single-quote character, written by code point to keep the source ASCII-clean. -/
def squote : Char := Char.ofNat 39

/-- Python triple double quote delimiter. -/
def tripleDouble : List Char := ['"', '"', '"']

/-- Python triple single quote delimiter. -/
def tripleSingle : List Char := [squote, squote, squote]

/-- `DEFAULT_COMMENT_CHARS = ('#', '//')`. -/
def DEFAULT_COMMENT_CHARS : List (List Char) := [['#'], ['/', '/']]

/-- `DEFAULT_MULTILINE_COMMENT_PAIRS`: triple double quote, triple single
quote, and the C-style pair. -/
def DEFAULT_MULTILINE_COMMENT_PAIRS : List CommentPair :=
  [(tripleDouble, tripleDouble), (tripleSingle, tripleSingle),
   (['/', '*'], ['*', '/'])]

/-- `CodeFinder.is_code`: `for ext in self.exts: if file.endswith(ext): return True`. -/
def is_code (exts : List (List Char)) (file : List Char) : Bool :=
  exts.any fun ext => ext.isSuffixOf file

/-- `CodeFinder.should_be_excluded`: returns whether `file.startswith(exclude)`
for some `exclude` in the list (`False` on an empty list). -/
def should_be_excluded (file : List Char) (excludes : List (List Char)) : Bool :=
  excludes.any fun exclude => exclude.isPrefixOf file

/-- Python `str.lstrip()`. -/
def lstrip (l : List Char) : List Char := l.dropWhile Char.isWhitespace

/-- Python `str.rstrip()` as applied to each raw line in `write_file`. -/
def rstrip (l : List Char) : List Char := (l.reverse.dropWhile Char.isWhitespace).reverse

/-- `CodeWriter.is_blank_line`: `not bool(line)`. -/
def is_blank_line (line : List Char) : Bool := line.isEmpty

/-- Python's substring test `pat in l`: some suffix of `l` starts with `pat`. -/
def containsSub (pat : List Char) : List Char → Bool
  | [] => pat.isPrefixOf []
  | c :: rest => pat.isPrefixOf (c :: rest) || containsSub pat rest

/-- The suffix of `l` strictly after the first occurrence of `pat`,
modelling Python `line[line.index(pat) + len(pat):]` (and `[]` when `pat`
does not occur, a case the source never reaches). -/
def afterFirst (pat : List Char) : List Char → List Char
  | [] => []
  | c :: rest =>
    if pat.isPrefixOf (c :: rest) then (c :: rest).drop pat.length
    else afterFirst pat rest

/-- `CodeWriter.is_comment_line`, with the mutable field
`self.current_comment_pair` made an explicit input/output state.
Returns the classification result and the new state. -/
def is_comment_line (pairs : List CommentPair) (comment_chars : List (List Char))
    (cur : Option CommentPair) (line0 : List Char) : Bool × Option CommentPair :=
  let line := lstrip line0
  match cur with
  | some pair =>
    if containsSub pair.2 line then (true, none) else (true, some pair)
  | none =>
    match pairs.find? (fun sp => containsSub sp.1 line) with
    | some (s, e) =>
      if containsSub e (afterFirst s line) then (true, none)
      else (true, some (s, e))
    | none =>
      (comment_chars.any (fun c => c.isPrefixOf line), none)

/-- Per-line classification outcome in the write pass. -/
inductive LineKind
  | blank
  | comment
  | code
deriving DecidableEq

/-- The per-line decision sequence of `write_file`: rstrip, blank check
first, then the comment classifier (which may update the scanner state). -/
def processLine (pairs : List CommentPair) (comment_chars : List (List Char))
    (st : Option CommentPair) (raw : List Char) : LineKind × Option CommentPair :=
  let line := rstrip raw
  if is_blank_line line then (LineKind.blank, st)
  else
    let r := is_comment_line pairs comment_chars st line
    if r.1 then (LineKind.comment, r.2) else (LineKind.code, r.2)

/-- `math.ceil(len(line) / width)`, the number of loop iterations in
`write_file`. -/
def numFragments (line : List Char) (W : Nat) : Nat := (line.length + W - 1) / W

/-- The `i`-th slice taken in the `write_file` loop: with `start = i * W`
and `remain = len(line) - start`, the slice is `line[start:start+W-1]`
when `remain >= W` and `line[start:]` otherwise. -/
def fragment (line : List Char) (W i : Nat) : List Char :=
  let start := i * W
  if W ≤ line.length - start then (line.drop start).take (W - 1)
  else line.drop start

/-- All fragments emitted for one code line. -/
def fragments (line : List Char) (W : Nat) : List (List Char) :=
  (List.range (numFragments line W)).map (fragment line W)

/-- The `i`-th fragment with the one reserved width-unit re-inserted:
for a fragment whose remainder is `>= W` the single dropped character
`line[start + W - 1]` is appended back. -/
def reinsert (line : List Char) (W i : Nat) : List Char :=
  let start := i * W
  if W ≤ line.length - start then
    fragment line W i ++ (line.drop (start + (W - 1))).take 1
  else fragment line W i

/-- The fragment loop of `write_file` for one code line: each fragment
becomes one output unit carrying its text and whether a page break is
attached (`self.total_paragraph_count % 50 == 0 and self.insert_page`),
and the process-wide counter advances by the number of fragments. -/
def emitFragments (W : Nat) (insert_page : Bool) (line : List Char) (c0 : Nat) :
    List (List Char × Bool) × Nat :=
  ((List.range (numFragments line W)).map
      (fun i => (fragment line W i, insert_page && ((c0 + i + 1) % 50 == 0))),
   c0 + numFragments line W)

/-- One iteration of the `write_file` line loop: blank and comment lines
are dropped, code lines are emitted as fragments. State is the pair
(scanner state, fragment counter). -/
def writeLine (pairs : List CommentPair) (comment_chars : List (List Char))
    (W : Nat) (insert_page : Bool) (sc : Option CommentPair × Nat) (raw : List Char) :
    (Option CommentPair × Nat) × List (List Char × Bool) :=
  match processLine pairs comment_chars sc.1 raw with
  | (LineKind.blank, st') => ((st', sc.2), [])
  | (LineKind.comment, st') => ((st', sc.2), [])
  | (LineKind.code, st') =>
    let oc := emitFragments W insert_page (rstrip raw) sc.2
    ((st', oc.2), oc.1)

/-- The body of `write_file` folded over the lines of a file. -/
def writeLines (pairs : List CommentPair) (comment_chars : List (List Char))
    (W : Nat) (insert_page : Bool) :
    Option CommentPair → Nat → List (List Char) →
      (Option CommentPair × Nat) × List (List Char × Bool)
  | st, c, [] => ((st, c), [])
  | st, c, raw :: rest =>
    let r1 := writeLine pairs comment_chars W insert_page (st, c) raw
    let r2 := writeLines pairs comment_chars W insert_page r1.1.1 r1.1.2 rest
    (r2.1, r1.2 ++ r2.2)

/-- `CodeWriter.write_file`: resets `self.current_comment_pair = None`
on entry (ignoring the incoming scanner state) and threads the
process-wide fragment counter through the line loop. -/
def write_file (pairs : List CommentPair) (comment_chars : List (List Char))
    (W : Nat) (insert_page : Bool) (ws : Option CommentPair × Nat)
    (lines : List (List Char)) :
    (Option CommentPair × Nat) × List (List Char × Bool) :=
  writeLines pairs comment_chars W insert_page none ws.2 lines

/-- `writer.write_file(file)` applied to every selected file in order,
as in `main`. -/
def write_files (pairs : List CommentPair) (comment_chars : List (List Char))
    (W : Nat) (insert_page : Bool) :
    Option CommentPair × Nat → List (List (List Char)) →
      (Option CommentPair × Nat) × List (List Char × Bool)
  | ws, [] => (ws, [])
  | ws, f :: fs =>
    let r1 := write_file pairs comment_chars W insert_page ws f
    let r2 := write_files pairs comment_chars W insert_page r1.1 fs
    (r2.1, r1.2 ++ r2.2)

/-- `is_comment_line` folded over a run of consecutive lines, recording
each classification result and the final scanner state. -/
def scanLines (pairs : List CommentPair) (comment_chars : List (List Char)) :
    Option CommentPair → List (List Char) → List Bool × Option CommentPair
  | st, [] => ([], st)
  | st, l :: ls =>
    let r := is_comment_line pairs comment_chars st l
    let rest := scanLines pairs comment_chars r.2 ls
    (r.1 :: rest.1, rest.2)

/-- The entry-file step of `main`: `if entry_path in files:
files.remove(entry_path)` (Python `remove` deletes the first occurrence
only) followed by `files.insert(0, entry_path)`. -/
def placeEntryFile (entry : List Char) (files : List (List Char)) : List (List Char) :=
  let files' := if files.contains entry then files.erase entry else files
  entry :: files'

/-- The multiline-comment configuration step of `main`: the start and end
lists are zipped only when both are non-empty and of equal length,
otherwise the configuration is `None`. -/
def mkMultilinePairs (starts ends : List (List Char)) : Option (List CommentPair) :=
  if starts ≠ [] ∧ ends ≠ [] ∧ starts.length = ends.length then
    some (starts.zip ends)
  else none

/-- The configuration fields of `CodeWriter`. -/
structure CodeWriter where
  command_chars : List (List Char)
  chars_in_line : Nat
  insert_page : Bool
  multiline_comment_pairs : List CommentPair

/-- `CodeWriter.__init__`: falsy (absent or empty) comment-character and
multiline-pair configurations fall back to the built-in defaults, and
`self.chars_in_line = chars_in_line * 2`. -/
def CodeWriter.init (command_chars : Option (List (List Char)))
    (multiline_comment_pairs : Option (List CommentPair))
    (chars_in_line : Nat) (insert_page : Bool) : CodeWriter :=
  { command_chars :=
      match command_chars with
      | some cs => if cs.isEmpty then DEFAULT_COMMENT_CHARS else cs
      | none => DEFAULT_COMMENT_CHARS
    chars_in_line := chars_in_line * 2
    insert_page := insert_page
    multiline_comment_pairs :=
      match multiline_comment_pairs with
      | some ps => if ps.isEmpty then DEFAULT_MULTILINE_COMMENT_PAIRS else ps
      | none => DEFAULT_MULTILINE_COMMENT_PAIRS }

/-- The page-break flags that the counter rule predicts for `n` fragments
emitted starting from counter value `c0`. -/
def pageFlags (insert_page : Bool) (c0 n : Nat) : List Bool :=
  (List.range n).map (fun i => insert_page && ((c0 + i + 1) % 50 == 0))

/-! ## Helper lemmas -/

theorem ceil_mul_ge (a b : Nat) (hb : 0 < b) : a ≤ ((a + b - 1) / b) * b := by
  rcases a with _ | c
  · simp
  · have h1 : c + 1 + b - 1 = c + b := by omega
    rw [h1, Nat.add_div_right c hb]
    have key := Nat.div_add_mod' c b
    have hm : c % b < b := Nat.mod_lt c hb
    calc c + 1 = c / b * b + c % b + 1 := by rw [key]
      _ = c / b * b + (c % b + 1) := by rw [Nat.add_assoc]
      _ ≤ c / b * b + b := Nat.add_le_add_left (Nat.succ_le_of_lt hm) _
      _ = (c / b + 1) * b := by rw [Nat.add_mul, Nat.one_mul]

theorem reinsert_eq_take (line : List Char) (W i : Nat) (hW : 0 < W) :
    reinsert line W i = (line.drop (i * W)).take W := by
  unfold reinsert fragment
  by_cases h : W ≤ line.length - i * W
  · simp only [h, if_true, if_pos h]
    rw [← List.drop_drop, ← List.take_add]
    congr 1
    omega
  · simp only [h, if_false, if_neg h]
    rw [List.take_of_length_le]
    rw [List.length_drop]
    omega

theorem flatten_chunks (l : List Char) (W : Nat) :
    ∀ n, ((List.range n).map (fun i => (l.drop (i * W)).take W)).flatten = l.take (n * W) := by
  intro n
  induction n with
  | zero => simp
  | succ n ih =>
    rw [List.range_succ, List.map_append, List.flatten_append, ih]
    simp only [List.map_cons, List.map_nil, List.flatten_cons, List.flatten_nil,
      List.append_nil]
    rw [Nat.succ_mul, List.take_add]

/-! ## Claims -/

/-- C1: for a code line of length `L` and effective width `W`, `write_file`
emits `ceil(L/W)` fragments, and concatenating the fragments with the one
reserved width-unit re-inserted for every fragment whose remainder is
`>= W` (in particular when `L` is an exact multiple of `W`) reconstructs
the line exactly. -/
theorem frag_count_and_reconstruct (line : List Char) (W : Nat) (hW : 0 < W) :
    (fragments line W).length = (line.length + W - 1) / W ∧
    ((List.range (numFragments line W)).map (reinsert line W)).flatten = line := by
  constructor
  · simp [fragments, numFragments]
  · rw [List.map_congr_left (fun i _ => reinsert_eq_take line W i hW), flatten_chunks]
    exact List.take_of_length_le (ceil_mul_ge line.length W hW)

/-- Witness for C1 on the concrete line `abcde` with width 2. -/
theorem frag_count_and_reconstruct_witness :
    (fragments ("abcde".toList) 2).length = 3 ∧
    ((List.range (numFragments ("abcde".toList) 2)).map (reinsert ("abcde".toList) 2)).flatten
      = "abcde".toList :=
  ⟨((frag_count_and_reconstruct ("abcde".toList) 2 (by decide)).1).trans (by decide),
   (frag_count_and_reconstruct ("abcde".toList) 2 (by decide)).2⟩

/-- C2: the effective fragment width set by `CodeWriter.__init__` is
`chars_in_line * 2`; every fragment whose remainder `len(line) - start`
is `>= W` holds exactly `W - 1` characters of the line, and the true
final fragment (remainder `< W`) holds the rest of the line verbatim. -/
theorem fragment_width (c : Nat) (hc : 0 < c) (W : Nat)
    (hW : W = (CodeWriter.init none none c false).chars_in_line)
    (line : List Char) (i : Nat) :
    W = c * 2 ∧
    (W ≤ line.length - i * W →
      (fragment line W i).length = W - 1 ∧
      fragment line W i = (line.drop (i * W)).take (W - 1)) ∧
    (line.length - i * W < W → fragment line W i = line.drop (i * W)) := by
  have hW2 : W = c * 2 := hW
  refine ⟨hW2, fun h => ⟨?_, ?_⟩, fun h => ?_⟩
  · unfold fragment
    rw [if_pos h, List.length_take, List.length_drop]
    omega
  · unfold fragment
    rw [if_pos h]
  · unfold fragment
    rw [if_neg (by omega)]

/-- Witness for C2 at `chars_in_line = 1` (width 2) on the line `abc`. -/
theorem fragment_width_witness :
    (2 : Nat) = 1 * 2 ∧ (fragment ("abc".toList) 2 0).length = 2 - 1 :=
  ⟨(fragment_width 1 (by decide) 2 (by decide) ("abc".toList) 0).1,
   ((fragment_width 1 (by decide) 2 (by decide) ("abc".toList) 0).2.1 (by decide)).1⟩

/-- C3: while the scanner state is open, `is_comment_line` classifies
every line COMMENT; the line containing the matching end-delimiter is
still COMMENT while clearing the state; and a comment opened on line `k`
and closed on line `k+3` classifies lines `k..k+3` all COMMENT, leaving
the scanner state `none` afterwards. -/
theorem open_state_scan :
    (∀ (pairs : List CommentPair) (comment_chars : List (List Char))
       (p : CommentPair) (line : List Char),
       (is_comment_line pairs comment_chars (some p) line).1 = true) ∧
    (∀ (pairs : List CommentPair) (comment_chars : List (List Char))
       (p : CommentPair) (line : List Char),
       containsSub p.2 (lstrip line) = true →
       is_comment_line pairs comment_chars (some p) line = (true, none)) ∧
    (∀ (pairs : List CommentPair) (comment_chars : List (List Char))
       (l0 l1 l2 l3 s e : List Char),
       is_comment_line pairs comment_chars none l0 = (true, some (s, e)) →
       containsSub e (lstrip l1) = false →
       containsSub e (lstrip l2) = false →
       containsSub e (lstrip l3) = true →
       scanLines pairs comment_chars none [l0, l1, l2, l3]
         = ([true, true, true, true], none)) := by
  refine ⟨fun pairs cc p line => ?_, fun pairs cc p line h => ?_,
    fun pairs cc l0 l1 l2 l3 s e h0 h1 h2 h3 => ?_⟩
  · by_cases h : containsSub p.2 (lstrip line) <;> simp [is_comment_line, h]
  · simp [is_comment_line, h]
  · simp only [scanLines, h0]
    simp [is_comment_line, h1, h2, h3]

/-- Witness for C3 on a C-style comment opened on line `k` and closed on
line `k+3`, against the default configuration. -/
theorem open_state_scan_witness :
    scanLines DEFAULT_MULTILINE_COMMENT_PAIRS DEFAULT_COMMENT_CHARS none
      ["/* open".toList, "middle".toList, "more".toList, "end */".toList]
      = ([true, true, true, true], none) :=
  open_state_scan.2.2 DEFAULT_MULTILINE_COMMENT_PAIRS DEFAULT_COMMENT_CHARS
    ("/* open".toList) ("middle".toList) ("more".toList) ("end */".toList)
    (['/', '*']) (['*', '/']) (by decide) (by decide) (by decide) (by decide)

/-- C4: a line consisting only of whitespace is classified BLANK in the
write pass and dropped, before any comment logic runs, whatever the
scanner state is — the state (and the fragment counter) are unchanged. -/
theorem blank_regardless_of_state (pairs : List CommentPair)
    (comment_chars : List (List Char)) (st : Option CommentPair)
    (raw : List Char) (hws : ∀ a ∈ raw, a.isWhitespace = true) :
    processLine pairs comment_chars st raw = (LineKind.blank, st) ∧
    ∀ (W : Nat) (insert_page : Bool) (c : Nat),
      writeLine pairs comment_chars W insert_page (st, c) raw = ((st, c), []) := by
  have hr : rstrip raw = [] := by
    unfold rstrip
    rw [List.dropWhile_eq_nil_iff.mpr (fun x hx => hws x (List.mem_reverse.mp hx))]
    rfl
  have hp : processLine pairs comment_chars st raw = (LineKind.blank, st) := by
    simp [processLine, hr, is_blank_line]
  exact ⟨hp, fun W insert_page c => by simp [writeLine, hp]⟩

/-- Witness for C4: a two-space line inside an open triple-quote comment
is still BLANK and leaves the open state untouched. -/
theorem blank_regardless_of_state_witness :
    processLine DEFAULT_MULTILINE_COMMENT_PAIRS DEFAULT_COMMENT_CHARS
      (some (tripleDouble, tripleDouble)) ("  ".toList)
      = (LineKind.blank, some (tripleDouble, tripleDouble)) :=
  (blank_regardless_of_state DEFAULT_MULTILINE_COMMENT_PAIRS DEFAULT_COMMENT_CHARS
    (some (tripleDouble, tripleDouble)) ("  ".toList) (by decide)).1

/-- C5: exclusion is a raw string-start test on absolute paths with no
separator-boundary check: a path is excluded exactly when it starts with
some exclusion entry; with exclude `/root/skip`, both `/root/skip/z.py`
and `/root/skipme.py` are excluded. -/
theorem exclusion_raw_startswith :
    (∀ (file : List Char) (excludes : List (List Char)),
       should_be_excluded file excludes = true ↔
         ∃ e ∈ excludes, e.isPrefixOf file = true) ∧
    should_be_excluded ("/root/skip/z.py".toList) [("/root/skip".toList)] = true ∧
    should_be_excluded ("/root/skipme.py".toList) [("/root/skip".toList)] = true := by
  refine ⟨fun file excludes => ?_, by decide, by decide⟩
  simp [should_be_excluded, List.any_eq_true]

theorem pageFlags_succ (insert_page : Bool) (c k : Nat) :
    pageFlags insert_page c (k + 1)
      = pageFlags insert_page c k ++ [insert_page && ((c + k + 1) % 50 == 0)] := by
  simp [pageFlags, List.range_succ]

theorem pageFlags_append (insert_page : Bool) (c m n : Nat) :
    pageFlags insert_page c m ++ pageFlags insert_page (c + m) n
      = pageFlags insert_page c (m + n) := by
  induction n with
  | zero => simp [pageFlags]
  | succ n ih =>
    rw [← Nat.add_assoc, pageFlags_succ, pageFlags_succ, ← List.append_assoc, ih]
    simp [Nat.add_assoc]

theorem writeLine_spec (pairs : List CommentPair) (comment_chars : List (List Char))
    (W : Nat) (insert_page : Bool) (st : Option CommentPair) (c : Nat)
    (raw : List Char) :
    (writeLine pairs comment_chars W insert_page (st, c) raw).1.2
      = c + (writeLine pairs comment_chars W insert_page (st, c) raw).2.length ∧
    (writeLine pairs comment_chars W insert_page (st, c) raw).2.map Prod.snd
      = pageFlags insert_page c
          (writeLine pairs comment_chars W insert_page (st, c) raw).2.length := by
  rcases hp : processLine pairs comment_chars st raw with ⟨k, st'⟩
  cases k with
  | blank => simp [writeLine, hp, pageFlags]
  | comment => simp [writeLine, hp, pageFlags]
  | code =>
    simp [writeLine, hp, emitFragments, pageFlags, List.map_map, Function.comp]

theorem writeLines_spec (pairs : List CommentPair) (comment_chars : List (List Char))
    (W : Nat) (insert_page : Bool) (lines : List (List Char))
    (st : Option CommentPair) (c : Nat) :
    (writeLines pairs comment_chars W insert_page st c lines).1.2
      = c + (writeLines pairs comment_chars W insert_page st c lines).2.length ∧
    (writeLines pairs comment_chars W insert_page st c lines).2.map Prod.snd
      = pageFlags insert_page c
          (writeLines pairs comment_chars W insert_page st c lines).2.length := by
  induction lines generalizing st c with
  | nil => simp [writeLines, pageFlags]
  | cons raw rest ih =>
    obtain ⟨h1c, h1m⟩ := writeLine_spec pairs comment_chars W insert_page st c raw
    obtain ⟨ih1, ih2⟩ :=
      ih (writeLine pairs comment_chars W insert_page (st, c) raw).1.1
        (writeLine pairs comment_chars W insert_page (st, c) raw).1.2
    constructor
    · simp only [writeLines, List.length_append]
      omega
    · simp only [writeLines, List.map_append, List.length_append]
      rw [h1m, ih2, h1c, pageFlags_append]

theorem write_files_spec (pairs : List CommentPair) (comment_chars : List (List Char))
    (W : Nat) (insert_page : Bool) (files : List (List (List Char)))
    (ws : Option CommentPair × Nat) :
    (write_files pairs comment_chars W insert_page ws files).1.2
      = ws.2 + (write_files pairs comment_chars W insert_page ws files).2.length ∧
    (write_files pairs comment_chars W insert_page ws files).2.map Prod.snd
      = pageFlags insert_page ws.2
          (write_files pairs comment_chars W insert_page ws files).2.length := by
  induction files generalizing ws with
  | nil => simp [write_files, pageFlags]
  | cons f fs ih =>
    obtain ⟨h1c, h1m⟩ :=
      writeLines_spec pairs comment_chars W insert_page f none ws.2
    obtain ⟨ih1, ih2⟩ :=
      ih (write_file pairs comment_chars W insert_page ws f).1
    constructor
    · simp only [write_files, List.length_append, write_file] at *
      omega
    · simp only [write_files, List.map_append, List.length_append, write_file] at *
      rw [h1m, ih2, h1c, pageFlags_append]

/-- C6: the fragment counter is process-wide across all files and
increments once per emitted fragment, so the page-break flag of the
`k`-th fragment of the whole run (1-based) is `insert_page` and
`k % 50 == 0`; in particular with 101 fragments the flags of a
pagination-enabled run are set exactly at fragments 50 and 100. -/
theorem pagination_every_50 (pairs : List CommentPair)
    (comment_chars : List (List Char)) (W : Nat) (insert_page : Bool)
    (files : List (List (List Char))) :
    (write_files pairs comment_chars W insert_page (none, 0) files).2.map Prod.snd
      = pageFlags insert_page 0
          (write_files pairs comment_chars W insert_page (none, 0) files).2.length ∧
    (write_files pairs comment_chars W insert_page (none, 0) files).1.2
      = (write_files pairs comment_chars W insert_page (none, 0) files).2.length ∧
    pageFlags true 0 101 = (List.range 101).map (fun i => decide (i = 49 ∨ i = 99)) := by
  refine ⟨(write_files_spec pairs comment_chars W insert_page files (none, 0)).2, ?_, by decide⟩
  have h := (write_files_spec pairs comment_chars W insert_page files (none, 0)).1
  simpa using h

/-- C9: `write_file` resets the multiline scanner state at the start of
every file — its result is independent of the incoming scanner state —
while the fragment counter is never reset and accumulates across all
files of the run. -/
theorem reset_state_not_counter (pairs : List CommentPair)
    (comment_chars : List (List Char)) (W : Nat) (insert_page : Bool) :
    (∀ (st st' : Option CommentPair) (c : Nat) (lines : List (List Char)),
       write_file pairs comment_chars W insert_page (st, c) lines
         = write_file pairs comment_chars W insert_page (st', c) lines) ∧
    (∀ (ws : Option CommentPair × Nat) (files : List (List (List Char))),
       (write_files pairs comment_chars W insert_page ws files).1.2
         = ws.2 + (write_files pairs comment_chars W insert_page ws files).2.length) :=
  ⟨fun _ _ _ _ => rfl,
   fun ws files => (write_files_spec pairs comment_chars W insert_page files ws).1⟩

theorem filter_ne_erase (a : List Char) :
    ∀ l : List (List Char),
      (l.erase a).filter (fun f => !(f == a)) = l.filter (fun f => !(f == a)) := by
  intro l
  induction l with
  | nil => rfl
  | cons x xs ih =>
    rw [List.erase_cons]
    by_cases h : (x == a) = true
    · rw [if_pos h, List.filter_cons, h]
      simp
    · rw [if_neg h, List.filter_cons, List.filter_cons]
      simp only [h, Bool.not_false, if_true, ih]

/-- C7 counterexample: when the entry path occurs twice in the walk
results (overlapping input directories), `files.remove` deletes only the
first occurrence, so the final list does not contain the entry path
exactly once. -/
theorem entry_dup_counterexample :
    (placeEntryFile ("/m.py".toList)
        [("/m.py".toList), ("/m.py".toList)]).count ("/m.py".toList) ≠ 1 := by
  decide

/-- C7 amended: the entry path ends up at index 0 and the relative order
of the other files is unchanged; it appears exactly once provided the
walk results contained it at most once (only the first occurrence is
removed before prepending). -/
theorem entry_placement (entry : List Char) (files : List (List Char)) :
    (placeEntryFile entry files).head? = some entry ∧
    (files.count entry ≤ 1 → (placeEntryFile entry files).count entry = 1) ∧
    (placeEntryFile entry files).filter (fun f => !(f == entry))
      = files.filter (fun f => !(f == entry)) := by
  refine ⟨rfl, fun hle => ?_, ?_⟩
  · unfold placeEntryFile
    by_cases hm : files.contains entry
    · rw [if_pos hm]
      have hmem : entry ∈ files := by
        rw [List.contains_eq_any_beq] at hm
        simp only [List.any_eq_true] at hm
        obtain ⟨x, hx, hbeq⟩ := hm
        rwa [show x = entry from (eq_of_beq hbeq).symm] at hx
      have hpos : 0 < files.count entry := List.count_pos_iff.mpr hmem
      rw [List.count_cons_self, List.count_erase_self]
      omega
    · rw [if_neg hm]
      have hmem : entry ∉ files := by
        intro hmem
        exact hm (List.elem_eq_true_of_mem hmem)
      rw [List.count_cons_self, List.count_eq_zero.mpr hmem]
  · unfold placeEntryFile
    by_cases hm : files.contains entry
    · rw [if_pos hm, List.filter_cons]
      simp only [BEq.refl, Bool.not_true, if_false]
      exact filter_ne_erase entry files
    · rw [if_neg hm, List.filter_cons]
      simp

/-- Witness for C7 amended on a walk list where the entry occurs once. -/
theorem entry_placement_witness :
    (placeEntryFile ("/m.py".toList)
        [("/a.py".toList), ("/m.py".toList)]).count ("/m.py".toList) = 1 :=
  (entry_placement ("/m.py".toList) [("/a.py".toList), ("/m.py".toList)]).2.1 (by decide)

/-- C8: when the configured multiline start/end lists are mismatched in
length or either is empty, the configuration is dropped and the built-in
default pairs are used; only two non-empty lists of equal length are
zipped into the pair table. -/
theorem multiline_config (starts ends : List (List Char)) :
    ((starts = [] ∨ ends = [] ∨ starts.length ≠ ends.length) →
      (CodeWriter.init none (mkMultilinePairs starts ends) 30 false).multiline_comment_pairs
        = DEFAULT_MULTILINE_COMMENT_PAIRS) ∧
    (starts ≠ [] → ends ≠ [] → starts.length = ends.length →
      (CodeWriter.init none (mkMultilinePairs starts ends) 30 false).multiline_comment_pairs
        = starts.zip ends) := by
  constructor
  · intro h
    have hnone : mkMultilinePairs starts ends = none := by
      unfold mkMultilinePairs
      rw [if_neg]
      tauto
    simp [CodeWriter.init, hnone]
  · intro h1 h2 h3
    have hsome : mkMultilinePairs starts ends = some (starts.zip ends) := by
      unfold mkMultilinePairs
      rw [if_pos ⟨h1, h2, h3⟩]
    have hz : (starts.zip ends).isEmpty = false := by
      rw [Bool.eq_false_iff]
      intro hz
      rw [List.isEmpty_iff] at hz
      have := congrArg List.length hz
      rw [List.length_zip, h3, Nat.min_self] at this
      exact h2 (List.length_eq_zero.mp this)
    simp [CodeWriter.init, hsome, hz]

/-- Witness for C8: a one-element start list with an empty end list
degrades silently to the defaults. -/
theorem multiline_config_witness :
    (CodeWriter.init none (mkMultilinePairs [['/', '*']] []) 30 false).multiline_comment_pairs
      = DEFAULT_MULTILINE_COMMENT_PAIRS :=
  (multiline_config [['/', '*']] []).1 (Or.inr (Or.inl rfl))

/-- C10: extension matching in `is_code` is a bare string-suffix test
with no dot or separator requirement: a file is selected exactly when
its name ends with some configured extension string, so with extensions
`['py']` the names `numpy` and `happy` are selected as code files. -/
theorem ext_bare_suffix :
    (∀ (exts : List (List Char)) (file : List Char),
       is_code exts file = true ↔ ∃ e ∈ exts, e.isSuffixOf file = true) ∧
    is_code [("py".toList)] ("numpy".toList) = true ∧
    is_code [("py".toList)] ("happy".toList) = true := by
  refine ⟨fun exts file => ?_, by decide, by decide⟩
  simp [is_code, List.any_eq_true]

end Pyerz
